import Mathlib

/-!
Verification of the sample-buffering / metrics / downsampling web worker of
the internet-tracker repository.  Timestamps (ISO strings parsed with
`Date.parse` in the source) are embedded directly as integer epoch
milliseconds; JS numbers appearing in averages are embedded as rationals.
-/

namespace Tracker

/-- A connectivity sample: `{ts, success, latency_ms}` as handled by the worker. -/
structure Sample where
  ts : Int
  success : Bool
  latency_ms : Option ℚ
deriving Repr, DecidableEq, Inhabited

/-- JS `p.latency_ms || 0`: a missing latency is treated as 0. -/
def latOr0 (s : Sample) : ℚ := s.latency_ms.getD 0

/-- The record returned by `computeMetrics`. -/
structure Metrics where
  count : Nat
  successes : Nat
  failures : Nat
  packet_loss_pct : ℚ
  avg_latency_ms : Option ℚ
  min_latency_ms : Option ℚ
  max_latency_ms : Option ℚ
  jitter_avg_abs_ms : Option ℚ
deriving Repr, DecidableEq

/-- The collection loop of `computeMetrics`: one pass over the samples pushing
`latency_ms` of successful samples with a non-null latency, and counting successes. -/
def collectLat (samples : List Sample) : List ℚ × Nat :=
  samples.foldl
    (fun (acc : List ℚ × Nat) s =>
      if s.success then
        match s.latency_ms with
        | some v => (acc.1 ++ [v], acc.2 + 1)
        | none => (acc.1, acc.2 + 1)
      else acc)
    ([], 0)

/-- The jitter loop of `computeMetrics`: `|latencies[i] - latencies[i-1]|` for
`i = 1 .. len-1`, in order. -/
def adjacentDiffs : List ℚ → List ℚ
  | a :: b :: rest => |b - a| :: adjacentDiffs (b :: rest)
  | _ => []

/-- `computeMetrics` of the worker (part_000, lines 48-72). -/
def computeMetrics (samples : List Sample) : Metrics :=
  let acc := collectLat samples
  let latencies := acc.1
  let successes := acc.2
  let total := samples.length
  let failures := total - successes
  let packetLoss : ℚ := if total = 0 then 0 else ((failures : ℚ) / (total : ℚ)) * 100
  let stats : Option ℚ × Option ℚ × Option ℚ × Option ℚ :=
    match latencies with
    | [] => (none, none, none, none)
    | q :: qs =>
      let mn := qs.foldl min q
      let mx := qs.foldl max q
      let avg := ((q :: qs).foldl (· + ·) 0) / (((q :: qs).length : ℚ))
      let jit :=
        if 1 < (q :: qs).length then
          let ds := adjacentDiffs (q :: qs)
          if ds.length = 0 then none
          else some ((ds.foldl (· + ·) 0) / ((ds.length : ℚ)))
        else none
      (some avg, some mn, some mx, jit)
  { count := total, successes := successes, failures := failures,
    packet_loss_pct := packetLoss,
    avg_latency_ms := stats.1, min_latency_ms := stats.2.1,
    max_latency_ms := stats.2.2.1, jitter_avg_abs_ms := stats.2.2.2 }

/-- Spec-side: the subsequence of latencies of successful samples with a
present latency, in original order ("Latency stats use only entries with
success = true and a present latency"). -/
def successLatencies (samples : List Sample) : List ℚ :=
  (samples.filter (fun s => s.success)).filterMap (fun s => s.latency_ms)

/-- Spec-side jitter: the mean of `|latency[i] − latency[i−1]|` over
consecutive entries of the latency-bearing subset, absent when that subset has
fewer than 2 entries. -/
def jitterSpec (samples : List Sample) : Option ℚ :=
  let l := successLatencies samples
  if l.length < 2 then none
  else some ((List.zipWith (fun a b => |b - a|) l l.tail).sum / ((l.length : ℚ) - 1))

/-- JS `Array.prototype.slice(s, e)`: negative indices count from the end,
both indices are clamped to `[0, length]`. -/
def jsSlice {α : Type} (l : List α) (s e : Int) : List α :=
  let n : Int := l.length
  let s' : Int := if s < 0 then max (n + s) 0 else min s n
  let e' : Int := if e < 0 then max (n + e) 0 else min e n
  (l.drop s'.toNat).take (e'.toNat - s'.toNat)

/-- The centroid accumulation loop of `lttbDownsample`: sum of timestamps, sum
of latencies and count, over the entries of `avgRange` with a non-null latency. -/
def lttbAvgFold (avgRange : List Sample) : ℚ × ℚ × ℚ :=
  avgRange.foldl
    (fun (acc : ℚ × ℚ × ℚ) p =>
      match p.latency_ms with
      | some v => (acc.1 + (p.ts : ℚ), acc.2.1 + v, acc.2.2 + 1)
      | none => acc)
    (0, 0, 0)

/-- The reference centroid `(avgX, avgY)` computed at loop iteration `i` of
`lttbDownsample`, with `a` the current anchor index: the average over
`data.slice(floor(i*bucketSize)+1, floor((i+1)*bucketSize)+1)` of entries with
non-null latency; if there are none, `data[a]` itself (latency-or-0) with count 1. -/
def lttbAvg (data : List Sample) (bucketSize : ℚ) (i : Nat) (a : Int) : ℚ × ℚ :=
  let avgRangeStart := Int.floor ((i : ℚ) * bucketSize) + 1
  let avgRangeEnd := Int.floor (((i : ℚ) + 1) * bucketSize) + 1
  let avgRange := jsSlice data avgRangeStart avgRangeEnd
  let t := lttbAvgFold avgRange
  let t := if t.2.2 = 0 then
      (((data.getD a.toNat default).ts : ℚ), latOr0 (data.getD a.toNat default), (1 : ℚ))
    else t
  (t.1 / t.2.2, t.2.1 / t.2.2)

/-- One iteration of the selection loop of `lttbDownsample`: compute the
triangle area of `p` with the anchor `aPt` and the centroid `(avgX, avgY)`
(missing latency treated as 0) and keep `p` when the area strictly exceeds the
best so far. -/
def lttbSelectStep (aPt : Sample) (avgX avgY : ℚ) (acc : ℚ × Option Sample) (p : Sample) :
    ℚ × Option Sample :=
  let area := |((aPt.ts : ℚ) - avgX) * (latOr0 p - avgY)
                - ((p.ts : ℚ) - avgX) * (latOr0 aPt - avgY)|
  if acc.1 < area then (area, some p) else acc

/-- The selection loop of `lttbDownsample`, started from `maxArea = -1`,
`chosen = null`.  Returns `(maxArea, chosen)`. -/
def lttbSelect (aPt : Sample) (avgX avgY : ℚ) (range : List Sample) : ℚ × Option Sample :=
  range.foldl (lttbSelectStep aPt avgX avgY) (-1, none)

/-- The main loop of `lttbDownsample` (`for(i=0;i<target-2;i++)`), written with
`k` remaining iterations.  State: current iteration index `i`, accumulated
`sampled` list, anchor index `a` (updated to `rangeStart` each iteration). -/
def lttbLoop (data : List Sample) (bucketSize : ℚ) :
    Nat → Nat → List Sample → Int → List Sample
  | 0, _, sampled, _ => sampled
  | k + 1, i, sampled, a =>
    let rangeStart := Int.floor (((i : ℚ) + 1) * bucketSize) + 1
    let rangeEnd := Int.floor (((i : ℚ) + 2) * bucketSize) + 1
    let range := jsSlice data rangeStart rangeEnd
    let c := lttbAvg data bucketSize i a
    let aPt := data.getD a.toNat default
    let chosen := (lttbSelect aPt c.1 c.2 range).2
    let sampled' := match chosen with
      | some p => sampled ++ [p]
      | none => sampled
    lttbLoop data bucketSize k (i + 1) sampled' rangeStart

/-- `lttbDownsample` of the worker (part_000, lines 74-100). -/
def lttbDownsample (data : List Sample) (target : Int) : List Sample :=
  if (data.length : Int) ≤ target then data
  else
    let bucketSize : ℚ := ((data.length : ℚ) - 2) / ((target : ℚ) - 2)
    let sampled := lttbLoop data bucketSize (target - 2).toNat 0 [data.getD 0 default] 0
    sampled ++ [data.getD (data.length - 1) default]

/-- Spec-side: the average of a bucket — timestamp as X, latency as Y, over
entries with a non-null latency only; `none` when the bucket has no
latency-bearing entry. -/
def centroidOfBucket (l : List Sample) : Option (ℚ × ℚ) :=
  let ps := l.filter (fun p => p.latency_ms.isSome)
  if ps.length = 0 then none
  else some ((ps.map (fun p => (p.ts : ℚ))).sum / (ps.length : ℚ),
             (ps.map latOr0).sum / (ps.length : ℚ))

/-! ### Lemmas about the metrics aggregator -/

theorem collectLat_go (samples : List Sample) :
    ∀ (L : List ℚ) (c : Nat),
      samples.foldl
        (fun (acc : List ℚ × Nat) s =>
          if s.success then
            match s.latency_ms with
            | some v => (acc.1 ++ [v], acc.2 + 1)
            | none => (acc.1, acc.2 + 1)
          else acc)
        (L, c)
      = (L ++ successLatencies samples, c + (samples.filter (fun s => s.success)).length) := by
  induction samples with
  | nil => intro L c; simp [successLatencies]
  | cons s rest ih =>
    intro L c
    by_cases hs : s.success
    · cases hl : s.latency_ms with
      | some v =>
        simp only [List.foldl_cons, hs, if_true, hl]
        rw [ih]
        simp [successLatencies, hs, hl, List.filter_cons]
        omega
      | none =>
        simp only [List.foldl_cons, hs, if_true, hl]
        rw [ih]
        simp [successLatencies, hs, hl, List.filter_cons]
        omega
    · simp only [List.foldl_cons, hs, if_false]
      rw [ih]
      simp [successLatencies, hs, List.filter_cons]

theorem collectLat_eq (samples : List Sample) :
    collectLat samples
      = (successLatencies samples, (samples.filter (fun s => s.success)).length) := by
  simpa [collectLat] using collectLat_go samples [] 0

theorem adjacentDiffs_eq_zipWith (l : List ℚ) :
    adjacentDiffs l = List.zipWith (fun a b => |b - a|) l l.tail := by
  induction l with
  | nil => rfl
  | cons a rest ih =>
    cases rest with
    | nil => rfl
    | cons b r => simp [adjacentDiffs, ih]

theorem adjacentDiffs_length (l : List ℚ) :
    (adjacentDiffs l).length = l.length - 1 := by
  induction l with
  | nil => rfl
  | cons a rest ih =>
    cases rest with
    | nil => rfl
    | cons b r => simp [adjacentDiffs] at ih ⊢; omega

theorem foldl_add_eq_sum (l : List ℚ) : ∀ a : ℚ, l.foldl (· + ·) a = a + l.sum := by
  induction l with
  | nil => intro a; simp
  | cons x rest ih => intro a; simp [List.foldl_cons, ih]; ring

/-- Claim C6: `aggregate` of the empty sequence yields count 0, successes 0,
failures 0, packet_loss_pct 0 and absent (not zero) avg/min/max latency and
jitter; and in general `packet_loss_pct = 100·failures/count` whenever
`count > 0`. -/
theorem C6_aggregate_empty_and_loss :
    computeMetrics [] =
      { count := 0, successes := 0, failures := 0, packet_loss_pct := 0,
        avg_latency_ms := none, min_latency_ms := none,
        max_latency_ms := none, jitter_avg_abs_ms := none } ∧
    ∀ samples : List Sample, 0 < samples.length →
      (computeMetrics samples).packet_loss_pct =
        100 * ((computeMetrics samples).failures : ℚ) / ((computeMetrics samples).count : ℚ) := by
  constructor
  · rfl
  · intro samples h
    have ht : samples.length ≠ 0 := Nat.pos_iff_ne_zero.mp h
    simp only [computeMetrics, if_neg ht]
    ring

/-- Claim C6 witness: the `count > 0` conjunct instantiated at a concrete
one-sample input. -/
theorem C6_aggregate_empty_and_loss_witness :
    0 < ([⟨0, false, none⟩] : List Sample).length ∧
    (computeMetrics [⟨0, false, none⟩]).packet_loss_pct =
      100 * ((computeMetrics [⟨0, false, none⟩]).failures : ℚ)
        / ((computeMetrics [⟨0, false, none⟩]).count : ℚ) :=
  ⟨by decide, C6_aggregate_empty_and_loss.2 [⟨0, false, none⟩] (by decide)⟩

/-- The jitter field of `computeMetrics`, rephrased over `successLatencies`. -/
theorem computeMetrics_jitter (samples : List Sample) :
    (computeMetrics samples).jitter_avg_abs_ms =
      match successLatencies samples with
      | [] => none
      | q :: qs =>
        if 1 < (q :: qs).length then
          if (adjacentDiffs (q :: qs)).length = 0 then none
          else some (((adjacentDiffs (q :: qs)).foldl (· + ·) 0)
                      / (((adjacentDiffs (q :: qs)).length : ℚ)))
        else none := by
  simp only [computeMetrics, collectLat_eq]
  rcases h : successLatencies samples with _ | ⟨q, qs⟩ <;> simp [h]

/-- Claim C7: jitter equals the mean of `|latency[i] − latency[i−1]|` over
consecutive entries of the subsequence of successful, latency-bearing samples
in original order; it is absent when that subsequence has fewer than 2
entries; and three successful samples with latencies `[10, 20, 15]` yield
jitter `15/2 = 7.5`. -/
theorem C7_jitter_spec :
    (∀ samples : List Sample,
       (computeMetrics samples).jitter_avg_abs_ms = jitterSpec samples) ∧
    (computeMetrics
        [⟨0, true, some 10⟩, ⟨1000, true, some 20⟩, ⟨2000, true, some 15⟩]).jitter_avg_abs_ms
      = some (15 / 2) := by
  constructor
  · intro samples
    rw [computeMetrics_jitter]
    rcases h : successLatencies samples with _ | ⟨q, qs⟩
    · simp [jitterSpec, h]
    · rcases qs with _ | ⟨q', qs'⟩
      · simp [jitterSpec, h]
      · have hlen : (adjacentDiffs (q :: q' :: qs')).length = qs'.length + 1 := by
          rw [adjacentDiffs_length]; simp
        simp only [jitterSpec, h]
        rw [if_pos (by simp), if_neg (by omega), if_neg (by simp)]
        rw [foldl_add_eq_sum, hlen, adjacentDiffs_eq_zipWith]
        have hc : ((q :: q' :: qs').length : ℚ) - 1 = ((qs'.length + 1 : Nat) : ℚ) := by
          simp only [List.length_cons]; push_cast; ring
        rw [hc]
        norm_num
  · rw [computeMetrics_jitter]
    have hs : successLatencies
        [⟨0, true, some 10⟩, ⟨1000, true, some 20⟩, ⟨2000, true, some 15⟩]
        = [10, 20, 15] := by simp [successLatencies]
    rw [hs]
    norm_num [adjacentDiffs, foldl_add_eq_sum, abs_of_nonneg, abs_of_nonpos]

/-! ### Lemmas about the decimator -/

theorem head?_append_left {α : Type} (l l' : List α) (h : l ≠ []) :
    (l ++ l').head? = l.head? := by
  cases l with
  | nil => exact absurd rfl h
  | cons x xs => rfl

theorem getLast?_append_singleton {α : Type} (l : List α) (a : α) :
    (l ++ [a]).getLast? = some a := by
  induction l with
  | nil => rfl
  | cons x xs ih =>
    cases xs with
    | nil => rfl
    | cons y ys =>
      show (x :: y :: (ys ++ [a])).getLast? = some a
      rw [List.getLast?_cons_cons]
      exact ih

theorem getLast?_eq_getD {α : Type} [Inhabited α] (S : List α) (h : S ≠ []) :
    S.getLast? = some (S.getD (S.length - 1) default) := by
  induction S with
  | nil => exact absurd rfl h
  | cons a rest ih =>
    cases rest with
    | nil => rfl
    | cons b r =>
      rw [List.getLast?_cons_cons, ih (by simp)]
      have : (a :: b :: r).length - 1 = ((b :: r).length - 1) + 1 := by simp
      rw [this, List.getD_cons_succ]

theorem lttbSelectStep_isSome (aPt : Sample) (ax ay : ℚ) (acc : ℚ × Option Sample)
    (p : Sample) (h : acc.2.isSome = true) :
    ((lttbSelectStep aPt ax ay acc p).2).isSome = true := by
  simp only [lttbSelectStep]
  split
  · rfl
  · exact h

theorem lttbSelect_go_isSome (aPt : Sample) (ax ay : ℚ) (l : List Sample) :
    ∀ acc : ℚ × Option Sample, acc.2.isSome = true →
      ((l.foldl (lttbSelectStep aPt ax ay) acc).2).isSome = true := by
  induction l with
  | nil => intro acc h; simpa using h
  | cons p rest ih =>
    intro acc h
    rw [List.foldl_cons]
    exact ih _ (lttbSelectStep_isSome aPt ax ay acc p h)

theorem lttbSelect_isSome (aPt : Sample) (ax ay : ℚ) (range : List Sample)
    (h : range ≠ []) : ((lttbSelect aPt ax ay range).2).isSome = true := by
  cases range with
  | nil => exact absurd rfl h
  | cons p ps =>
    unfold lttbSelect
    rw [List.foldl_cons]
    apply lttbSelect_go_isSome
    have hpos : (-1 : ℚ) < |((aPt.ts : ℚ) - ax) * (latOr0 p - ay)
        - ((p.ts : ℚ) - ax) * (latOr0 aPt - ay)| := by
      have := abs_nonneg (((aPt.ts : ℚ) - ax) * (latOr0 p - ay)
                - ((p.ts : ℚ) - ax) * (latOr0 aPt - ay))
      linarith
    simp only [lttbSelectStep]
    rw [if_pos hpos]
    rfl

theorem jsSlice_ne_nil {α : Type} (l : List α) (s e : Int)
    (h0 : 0 ≤ s) (h1 : s < (l.length : Int)) (h2 : s < e) : jsSlice l s e ≠ [] := by
  simp only [jsSlice]
  rw [if_neg (by omega), if_neg (by omega)]
  have hs' : min s (l.length : Int) = s := min_eq_left (le_of_lt h1)
  rw [hs']
  have he' : s + 1 ≤ min e (l.length : Int) := le_min (by omega) (by omega)
  intro hcontra
  rcases List.take_eq_nil_iff.mp hcontra with h3 | h3
  · omega
  · have := List.drop_eq_nil_iff.mp h3
    omega

theorem lttbLoop_spec (data : List Sample) (b : ℚ) :
    ∀ (k i : Nat) (sampled : List Sample) (a : Int),
      sampled ≠ [] →
      (∀ j : Nat, i ≤ j → j < i + k →
        jsSlice data (Int.floor (((j : ℚ) + 1) * b) + 1)
          (Int.floor (((j : ℚ) + 2) * b) + 1) ≠ []) →
      (lttbLoop data b k i sampled a).length = sampled.length + k ∧
      (lttbLoop data b k i sampled a).head? = sampled.head? ∧
      lttbLoop data b k i sampled a ≠ [] := by
  intro k
  induction k with
  | zero =>
    intro i sampled a hne _
    exact ⟨by simp [lttbLoop], by simp [lttbLoop], by simpa [lttbLoop] using hne⟩
  | succ k ih =>
    intro i sampled a hne hr
    have hrange : jsSlice data (Int.floor (((i : ℚ) + 1) * b) + 1)
        (Int.floor (((i : ℚ) + 2) * b) + 1) ≠ [] :=
      hr i (Nat.le_refl i) (by omega)
    have hsome := lttbSelect_isSome (data.getD a.toNat default)
      (lttbAvg data b i a).1 (lttbAvg data b i a).2 _ hrange
    obtain ⟨p, hp⟩ := Option.isSome_iff_exists.mp hsome
    have hstep : lttbLoop data b (k + 1) i sampled a
        = lttbLoop data b k (i + 1) (sampled ++ [p])
            (Int.floor (((i : ℚ) + 1) * b) + 1) := by
      simp only [lttbLoop]
      rw [hp]
    rw [hstep]
    obtain ⟨ih1, ih2, ih3⟩ := ih (i + 1) (sampled ++ [p])
      (Int.floor (((i : ℚ) + 1) * b) + 1) (by simp)
      (fun j hj1 hj2 => hr j (by omega) (by omega))
    refine ⟨?_, ?_, ih3⟩
    · rw [ih1]; simp; omega
    · rw [ih2]; exact head?_append_left sampled [p] hne

theorem lttb_range_ne_nil (data : List Sample) (target : Int)
    (hn : target < (data.length : Int)) (h3 : 3 ≤ target) (j : Nat)
    (hj : (j : Int) < target - 2) :
    jsSlice data
      (Int.floor (((j : ℚ) + 1) * (((data.length : ℚ) - 2) / ((target : ℚ) - 2))) + 1)
      (Int.floor (((j : ℚ) + 2) * (((data.length : ℚ) - 2) / ((target : ℚ) - 2))) + 1) ≠ [] := by
  have htq : (0 : ℚ) < (target : ℚ) - 2 := by
    have h3q : (3 : ℚ) ≤ (target : ℚ) := by exact_mod_cast h3
    linarith
  have hnq : (target : ℚ) < ((data.length : Nat) : ℚ) := by exact_mod_cast hn
  set n : Nat := data.length with hn0
  set b : ℚ := ((n : ℚ) - 2) / ((target : ℚ) - 2) with hb
  have hb1 : (1 : ℚ) ≤ b := by
    rw [hb, le_div_iff₀ htq]; linarith
  have hbpos : (0 : ℚ) < b := lt_of_lt_of_le one_pos hb1
  have hjq : ((j : ℚ) + 1) ≤ (target : ℚ) - 2 := by
    have hji : (j : Int) + 1 ≤ target - 2 := by omega
    exact_mod_cast hji
  have hmul : ((j : ℚ) + 1) * b ≤ (n : ℚ) - 2 := by
    calc ((j : ℚ) + 1) * b ≤ ((target : ℚ) - 2) * b :=
          mul_le_mul_of_nonneg_right hjq (le_of_lt hbpos)
      _ = (n : ℚ) - 2 := by rw [hb]; field_simp
  have h2n : (2 : Int) ≤ (n : Int) := by
    have : (3 : Int) < (n : Int) := by omega
    omega
  have hcast : ((n : ℚ) - 2) = (((n : Int) - 2 : Int) : ℚ) := by push_cast; ring
  have hfl : Int.floor (((j : ℚ) + 1) * b) ≤ (n : Int) - 2 := by
    rw [hcast] at hmul
    calc Int.floor (((j : ℚ) + 1) * b) ≤ Int.floor ((((n : Int) - 2 : Int) : ℚ)) :=
          Int.floor_le_floor hmul
      _ = (n : Int) - 2 := Int.floor_intCast _
  have hrs0 : 0 ≤ Int.floor (((j : ℚ) + 1) * b) := by
    apply Int.floor_nonneg.mpr
    positivity
  have hre : Int.floor (((j : ℚ) + 1) * b) + 1 ≤ Int.floor (((j : ℚ) + 2) * b) := by
    have heq : ((j : ℚ) + 2) * b = ((j : ℚ) + 1) * b + b := by ring
    calc Int.floor (((j : ℚ) + 1) * b) + 1
        = Int.floor (((j : ℚ) + 1) * b + ((1 : Int) : ℚ)) := (Int.floor_add_int _ _).symm
      _ ≤ Int.floor (((j : ℚ) + 2) * b) := by
          apply Int.floor_le_floor
          rw [heq]
          push_cast
          linarith
  apply jsSlice_ne_nil
  · omega
  · omega
  · omega

/-- Claim C1: for target `T ≥ 2`, if `|S| ≤ T` the decimator returns `S`
unchanged; if `|S| > T` it returns exactly `T` points whose first element is
`S`'s first and whose last element is `S`'s last. -/
theorem C1_decimate_identity_and_size (S : List Sample) (T : Int) (hT : 2 ≤ T) :
    ((S.length : Int) ≤ T → lttbDownsample S T = S) ∧
    (T < (S.length : Int) →
      ((lttbDownsample S T).length : Int) = T ∧
      (lttbDownsample S T).head? = S.head? ∧
      (lttbDownsample S T).getLast? = S.getLast?) := by
  constructor
  · intro h
    simp [lttbDownsample, h]
  · intro h
    have hnle : ¬ ((S.length : Int) ≤ T) := by omega
    have hres : lttbDownsample S T
        = lttbLoop S (((S.length : ℚ) - 2) / ((T : ℚ) - 2)) (T - 2).toNat 0
            [S.getD 0 default] 0 ++ [S.getD (S.length - 1) default] := by
      simp only [lttbDownsample, if_neg hnle]
    have hS : S ≠ [] := by
      intro hS0
      rw [hS0] at h
      simp at h
      omega
    have hr : ∀ j : Nat, 0 ≤ j → j < 0 + (T - 2).toNat →
        jsSlice S (Int.floor (((j : ℚ) + 1) * (((S.length : ℚ) - 2) / ((T : ℚ) - 2))) + 1)
          (Int.floor (((j : ℚ) + 2) * (((S.length : ℚ) - 2) / ((T : ℚ) - 2))) + 1) ≠ [] := by
      intro j _ hj
      have h3 : 3 ≤ T := by omega
      exact lttb_range_ne_nil S T h h3 j (by omega)
    obtain ⟨hlen, hhead, hne⟩ := lttbLoop_spec S (((S.length : ℚ) - 2) / ((T : ℚ) - 2))
      (T - 2).toNat 0 [S.getD 0 default] 0 (by simp) hr
    refine ⟨?_, ?_, ?_⟩
    · rw [hres]
      rw [List.length_append, hlen]
      simp
      omega
    · rw [hres, head?_append_left _ _ hne, hhead]
      cases S with
      | nil => exact absurd rfl hS
      | cons s0 rest => rfl
    · rw [hres, getLast?_append_singleton]
      exact (getLast?_eq_getD S hS).symm

/-- Claim C1 witness: a 4-sample input decimated to target 3. -/
theorem C1_decimate_identity_and_size_witness :
    ((3 : Int) < (([⟨0, true, some 1⟩, ⟨1, true, some 5⟩, ⟨2, true, some 2⟩,
        ⟨3, true, some 7⟩] : List Sample).length : Int)) ∧
    ((lttbDownsample [⟨0, true, some 1⟩, ⟨1, true, some 5⟩, ⟨2, true, some 2⟩,
        ⟨3, true, some 7⟩] 3).length : Int) = 3 :=
  ⟨by decide,
   ((C1_decimate_identity_and_size
      [⟨0, true, some 1⟩, ⟨1, true, some 5⟩, ⟨2, true, some 2⟩, ⟨3, true, some 7⟩]
      3 (by decide)).2 (by decide)).1⟩

theorem lttbAvgFold_go (l : List Sample) :
    ∀ acc : ℚ × ℚ × ℚ,
      l.foldl
        (fun (acc : ℚ × ℚ × ℚ) p =>
          match p.latency_ms with
          | some v => (acc.1 + (p.ts : ℚ), acc.2.1 + v, acc.2.2 + 1)
          | none => acc)
        acc
      = (acc.1 + ((l.filter (fun p => p.latency_ms.isSome)).map (fun p => (p.ts : ℚ))).sum,
         acc.2.1 + ((l.filter (fun p => p.latency_ms.isSome)).map latOr0).sum,
         acc.2.2 + (((l.filter (fun p => p.latency_ms.isSome)).length : Nat) : ℚ)) := by
  induction l with
  | nil => intro acc; simp
  | cons p rest ih =>
    intro acc
    cases hl : p.latency_ms with
    | some v =>
      rw [List.foldl_cons]
      simp only [hl]
      rw [ih]
      have hfil : (p :: rest).filter (fun p => p.latency_ms.isSome)
          = p :: rest.filter (fun p => p.latency_ms.isSome) := by
        simp [List.filter_cons, hl]
      rw [hfil]
      have hv : latOr0 p = v := by simp [latOr0, hl]
      simp [hv]
      refine ⟨by ring, by ring, by ring⟩
    | none =>
      rw [List.foldl_cons]
      simp only [hl]
      rw [ih]
      have hfil : (p :: rest).filter (fun p => p.latency_ms.isSome)
          = rest.filter (fun p => p.latency_ms.isSome) := by
        simp [List.filter_cons, hl]
      rw [hfil]

theorem lttbAvgFold_eq (l : List Sample) :
    lttbAvgFold l
      = (((l.filter (fun p => p.latency_ms.isSome)).map (fun p => (p.ts : ℚ))).sum,
         ((l.filter (fun p => p.latency_ms.isSome)).map latOr0).sum,
         (((l.filter (fun p => p.latency_ms.isSome)).length : Nat) : ℚ)) := by
  simpa [lttbAvgFold] using lttbAvgFold_go l (0, 0, 0)

/-- Claim C2 (amended): for every loop iteration `i` with anchor index `a`, the
reference centroid used by the decimator equals the latency-only average of the
bucket `data.slice(floor(i·b)+1, floor((i+1)·b)+1)` — the bucket immediately
BEFORE the selection range `data.slice(floor((i+1)·b)+1, floor((i+2)·b)+1)` —
and when that bucket has no latency-bearing entry it falls back to `data[a]`'s
own timestamp and latency-or-0, where `a` is the start index of the previous
selection range (`0` for the first iteration), not necessarily the previously
selected point. -/
theorem C2_centroid_prev_bucket (data : List Sample) (b : ℚ) (i : Nat) (a : Int) :
    lttbAvg data b i a =
      match centroidOfBucket
          (jsSlice data (Int.floor ((i : ℚ) * b) + 1) (Int.floor (((i : ℚ) + 1) * b) + 1)) with
      | some c => c
      | none => (((data.getD a.toNat default).ts : ℚ), latOr0 (data.getD a.toNat default)) := by
  simp only [lttbAvg, centroidOfBucket, lttbAvgFold_eq]
  by_cases hc :
      ((jsSlice data (Int.floor ((i : ℚ) * b) + 1)
          (Int.floor (((i : ℚ) + 1) * b) + 1)).filter (fun p => p.latency_ms.isSome)).length = 0
  · rw [if_pos (by exact_mod_cast congrArg (Nat.cast : Nat → ℚ) hc), if_pos hc]
    simp
  · rw [if_neg (by exact_mod_cast hc), if_neg hc]

/-- The 6-sample input used to refute Claim C2, with target 4 (`bucketSize = 2`). -/
def c2data : List Sample :=
  [⟨0, true, some 5⟩, ⟨1000, true, some 10⟩, ⟨2000, true, some 10⟩,
   ⟨3000, true, some 30⟩, ⟨4000, true, some 40⟩, ⟨5000, true, some 99⟩]

/-- Claim C2 counterexample: on `c2data` with target 4 (`bucketSize = 2`), at
the first loop iteration (`i = 0`, anchor `a = 0`) the selection range is
`data.slice(3,5)`; the centroid actually used is `(1500, 10)`, the average of
the PRECEDING bucket `data.slice(1,3)`, while the average of the bucket AFTER
the selection range, `data.slice(5,7)`, is `(5000, 99) ≠ (1500, 10)`. -/
theorem C2_counterexample :
    lttbAvg c2data 2 0 0 = (1500, 10) ∧
    centroidOfBucket
        (jsSlice c2data (Int.floor (((0 : ℚ) + 2) * 2) + 1)
          (Int.floor (((0 : ℚ) + 3) * 2) + 1)) = some (5000, 99) ∧
    ((1500, 10) : ℚ × ℚ) ≠ (5000, 99) := by
  refine ⟨?_, ?_, by norm_num⟩
  · have hf1 : Int.floor (((0 : Nat) : ℚ) * 2) + 1 = (1 : Int) := by norm_num
    have hf2 : Int.floor ((((0 : Nat) : ℚ) + 1) * 2) + 1 = (3 : Int) := by norm_num
    simp only [lttbAvg, hf1, hf2]
    have hsl : jsSlice c2data 1 3 = [⟨1000, true, some 10⟩, ⟨2000, true, some 10⟩] := rfl
    rw [hsl, lttbAvgFold_eq]
    norm_num [latOr0]
  · have hf1 : Int.floor (((0 : ℚ) + 2) * 2) + 1 = (5 : Int) := by norm_num
    have hf2 : Int.floor (((0 : ℚ) + 3) * 2) + 1 = (7 : Int) := by norm_num
    rw [hf1, hf2]
    have hsl : jsSlice c2data 5 7 = [⟨5000, true, some 99⟩] := rfl
    rw [hsl]
    simp only [centroidOfBucket]
    norm_num [latOr0]

/-- Claim C9 (amended): for a non-positive decimation target `t`, decimation is
total (never crashes) and on every input with at least 2 samples its output is
exactly that of target 2; on a singleton input with `t ≤ 0`, however, the
output is the point duplicated, `[s, s]`, not `[s]`. -/
theorem C9_nonpositive_target (S : List Sample) (t : Int) (ht : t ≤ 0)
    (h2 : 2 ≤ S.length) : lttbDownsample S t = lttbDownsample S 2 := by
  have hnle : ¬ ((S.length : Int) ≤ t) := by omega
  have ht0 : (t - 2).toNat = 0 := by omega
  have hlhs : lttbDownsample S t = [S.getD 0 default, S.getD (S.length - 1) default] := by
    simp only [lttbDownsample, if_neg hnle, ht0]
    rfl
  rw [hlhs]
  by_cases hle : (S.length : Int) ≤ 2
  · rcases S with _ | ⟨a, _ | ⟨b, rest⟩⟩
    · simp at h2
    · simp at h2
    · have hrest : rest = [] := by
        simp at hle
        exact List.eq_nil_of_length_eq_zero (by omega)
      subst hrest
      simp [lttbDownsample]
  · simp only [lttbDownsample, if_neg hle]
    rfl

/-- Claim C9 witness: a two-sample input with target 0 decimates exactly as
with target 2. -/
theorem C9_nonpositive_target_witness :
    ((0 : Int) ≤ 0) ∧ 2 ≤ ([⟨0, true, some 1⟩, ⟨9, true, some 2⟩] : List Sample).length ∧
    lttbDownsample [⟨0, true, some 1⟩, ⟨9, true, some 2⟩] 0
      = lttbDownsample [⟨0, true, some 1⟩, ⟨9, true, some 2⟩] 2 :=
  ⟨by decide, by decide,
   C9_nonpositive_target [⟨0, true, some 1⟩, ⟨9, true, some 2⟩] 0 (by decide) (by decide)⟩

/-! ### The circular buffer -/

/-- The worker's `CircularBuffer` (part_000, lines 4-40): a fixed array of
`capacity` slots (unfilled slots modelled as `none`), `start` the index of the
oldest entry, `length` the number of valid entries. -/
structure CircularBuffer where
  capacity : Nat
  buffer : List (Option Sample)
  start : Nat
  length : Nat
deriving Repr, DecidableEq

/-- `new CircularBuffer(capacity)`. -/
def CircularBuffer.mk0 (capacity : Nat) : CircularBuffer :=
  ⟨capacity, List.replicate capacity none, 0, 0⟩

/-- `push(item)`: write at the free slot when not full, else overwrite the
oldest entry and advance `start`. -/
def CircularBuffer.push (cb : CircularBuffer) (item : Sample) : CircularBuffer :=
  if cb.length < cb.capacity then
    { cb with buffer := cb.buffer.set ((cb.start + cb.length) % cb.capacity) (some item),
              length := cb.length + 1 }
  else
    { cb with buffer := cb.buffer.set cb.start (some item),
              start := (cb.start + 1) % cb.capacity }

/-- `toArray()`: the `length` valid slots, oldest → newest. -/
def CircularBuffer.toArray (cb : CircularBuffer) : List (Option Sample) :=
  (List.range cb.length).map (fun i => cb.buffer.getD ((cb.start + i) % cb.capacity) none)

/-- `toArray()` with the slots dereferenced: the worker's array holds an actual
sample in every valid slot. -/
def CircularBuffer.toArrayD (cb : CircularBuffer) : List Sample :=
  cb.toArray.map (fun o => o.getD default)

/-- Well-formedness of a buffer state, maintained by all worker operations. -/
def CircularBuffer.WF (cb : CircularBuffer) : Prop :=
  cb.buffer.length = cb.capacity ∧ cb.start < cb.capacity ∧ cb.length ≤ cb.capacity

/-- The sequential `for(const s of samples){ buffer.push(s) }` loops of the
worker. -/
def pushAll (cb : CircularBuffer) (l : List Sample) : CircularBuffer :=
  l.foldl CircularBuffer.push cb

/-- The abstract effect of one `push` on the stored sequence. -/
def absPush (cap : Nat) (M : List Sample) (x : Sample) : List Sample :=
  if M.length < cap then M ++ [x] else M.tail ++ [x]

theorem getD_set_self {α : Type} (l : List α) (n : Nat) (a d : α) (h : n < l.length) :
    (l.set n a).getD n d = a := by
  rw [List.getD_eq_getElem?_getD]
  simp [List.getElem?_set_self', h]

theorem getD_set_ne {α : Type} (l : List α) (m n : Nat) (a d : α) (h : m ≠ n) :
    (l.set m a).getD n d = l.getD n d := by
  rw [List.getD_eq_getElem?_getD, List.getElem?_set_ne h, ← List.getD_eq_getElem?_getD]

theorem mod_shift_ne (st i j cap : Nat) (hi : i < cap) (hj : j < cap) (hne : i ≠ j) :
    (st + i) % cap ≠ (st + j) % cap := by
  intro heq
  have h2 : i ≡ j [MOD cap] := Nat.ModEq.add_left_cancel' st heq
  have h3 : i % cap = j % cap := h2
  rw [Nat.mod_eq_of_lt hi, Nat.mod_eq_of_lt hj] at h3
  exact hne h3

theorem toArray_length (cb : CircularBuffer) : cb.toArray.length = cb.length := by
  simp [CircularBuffer.toArray]

theorem toArray_mk0 (cap : Nat) : (CircularBuffer.mk0 cap).toArray = [] := by
  simp [CircularBuffer.mk0, CircularBuffer.toArray]

theorem WF_mk0 (cap : Nat) (h : 0 < cap) : (CircularBuffer.mk0 cap).WF := by
  refine ⟨by simp [CircularBuffer.mk0], by simpa [CircularBuffer.mk0] using h,
    by simp [CircularBuffer.mk0]⟩

theorem WF_push (cb : CircularBuffer) (x : Sample) (h : cb.WF) : (cb.push x).WF := by
  obtain ⟨h1, h2, h3⟩ := h
  unfold CircularBuffer.push
  split
  · exact ⟨by simpa using h1, by simpa using h2, by simp; omega⟩
  · refine ⟨by simpa using h1, ?_, by simpa using h3⟩
    simp
    exact Nat.mod_lt _ (by omega)

/-- Effect of `push` on `toArray` when the buffer is not yet full. -/
theorem toArray_push_not_full (cb : CircularBuffer) (x : Sample) (h : cb.WF)
    (hlt : cb.length < cb.capacity) :
    (cb.push x).toArray = cb.toArray ++ [some x] := by
  obtain ⟨h1, h2, h3⟩ := h
  have hpush : cb.push x
      = { cb with buffer := cb.buffer.set ((cb.start + cb.length) % cb.capacity) (some x),
                  length := cb.length + 1 } := by
    unfold CircularBuffer.push
    rw [if_pos hlt]
  rw [hpush]
  simp only [CircularBuffer.toArray, List.range_succ, List.map_append, List.map_cons,
    List.map_nil]
  congr 1
  · apply List.map_congr_left
    intro i hi
    have hilt : i < cb.length := List.mem_range.mp hi
    apply getD_set_ne
    exact mod_shift_ne cb.start cb.length i cb.capacity hlt (by omega) (by omega)
  · rw [getD_set_self]
    rw [h1]
    exact Nat.mod_lt _ (by omega)

/-- Effect of `push` on `toArray` when the buffer is full: the oldest entry is
dropped. -/
theorem toArray_push_full (cb : CircularBuffer) (x : Sample) (h : cb.WF)
    (hfull : ¬ cb.length < cb.capacity) :
    (cb.push x).toArray = cb.toArray.tail ++ [some x] := by
  obtain ⟨h1, h2, h3⟩ := h
  have hlen : cb.length = cb.capacity := by omega
  obtain ⟨k, hk⟩ : ∃ k, cb.capacity = k + 1 := ⟨cb.capacity - 1, by omega⟩
  have hpush : cb.push x
      = { cb with buffer := cb.buffer.set cb.start (some x),
                  start := (cb.start + 1) % cb.capacity } := by
    unfold CircularBuffer.push
    rw [if_neg hfull]
  have hidx : ∀ i : Nat, ((cb.start + 1) % cb.capacity + i) % cb.capacity
      = (cb.start + (1 + i)) % cb.capacity := by
    intro i
    rw [Nat.mod_add_mod, Nat.add_assoc]
  have hl : (cb.push x).toArray
      = List.map (fun i => (cb.buffer.set cb.start (some x)).getD
          (((cb.start + 1) % cb.capacity + i) % cb.capacity) none) (List.range k)
        ++ [(cb.buffer.set cb.start (some x)).getD
          (((cb.start + 1) % cb.capacity + k) % cb.capacity) none] := by
    rw [hpush]
    simp only [CircularBuffer.toArray]
    rw [hlen, hk, List.range_succ, List.map_append, List.map_cons, List.map_nil]
  have hr : cb.toArray.tail
      = List.map (fun i => cb.buffer.getD ((cb.start + (1 + i)) % cb.capacity) none)
          (List.range k) := by
    simp only [CircularBuffer.toArray]
    rw [hlen, hk, List.range_succ_eq_map, List.map_cons, List.tail_cons, List.map_map]
    apply List.map_congr_left
    intro i hi
    simp only [Function.comp_apply]
    congr 2
    omega
  rw [hl, hr]
  congr 1
  · apply List.map_congr_left
    intro i hi
    have hilt : i < k := List.mem_range.mp hi
    rw [hidx i]
    have hst : (cb.start + 0) % cb.capacity = cb.start := by
      rw [Nat.add_zero, Nat.mod_eq_of_lt h2]
    have hne0 : (cb.start + (1 + i)) % cb.capacity ≠ (cb.start + 0) % cb.capacity :=
      mod_shift_ne cb.start (1 + i) 0 cb.capacity (by omega) (by omega) (by omega)
    rw [hst] at hne0
    exact getD_set_ne _ _ _ _ _ (fun hcontra => hne0 hcontra.symm)
  · rw [hidx k]
    have hk2 : (cb.start + (1 + k)) % cb.capacity = cb.start := by
      have hstep : cb.start + (1 + k) = cb.start + cb.capacity := by omega
      rw [hstep, Nat.add_mod_right, Nat.mod_eq_of_lt h2]
    rw [hk2, getD_set_self]
    rw [h1]
    exact h2

theorem push_capacity (cb : CircularBuffer) (x : Sample) :
    (cb.push x).capacity = cb.capacity := by
  unfold CircularBuffer.push
  split <;> rfl

theorem toArray_push_abs (cb : CircularBuffer) (x : Sample) (M : List Sample) (h : cb.WF)
    (hM : cb.toArray = M.map some) :
    (cb.push x).toArray = (absPush cb.capacity M x).map some := by
  have hlenM : cb.length = M.length := by
    have hl := toArray_length cb
    rw [hM] at hl
    simpa using hl.symm
  unfold absPush
  by_cases hlt : cb.length < cb.capacity
  · rw [toArray_push_not_full cb x h hlt, hM, if_pos (by omega)]
    simp
  · rw [toArray_push_full cb x h hlt, hM, if_neg (by omega)]
    simp [List.map_tail]

theorem toArrayD_of_map_some (cb : CircularBuffer) (M : List Sample)
    (h : cb.toArray = M.map some) : cb.toArrayD = M := by
  simp [CircularBuffer.toArrayD, h, List.map_map, Function.comp_def]

theorem toArray_pushAll (L : List Sample) :
    ∀ (cb : CircularBuffer) (M : List Sample), cb.WF → cb.toArray = M.map some →
      (pushAll cb L).toArray = (L.foldl (absPush cb.capacity) M).map some ∧
      (pushAll cb L).WF ∧ (pushAll cb L).capacity = cb.capacity := by
  induction L with
  | nil =>
    intro cb M h hM
    exact ⟨hM, h, rfl⟩
  | cons x L ih =>
    intro cb M h hM
    have h1 := toArray_push_abs cb x M h hM
    have h2 := WF_push cb x h
    have h3 := push_capacity cb x
    obtain ⟨ih1, ih2, ih3⟩ := ih (cb.push x) (absPush cb.capacity M x) h2 h1
    refine ⟨?_, ?_, ?_⟩
    · show (pushAll (cb.push x) L).toArray = _
      rw [ih1, h3, List.foldl_cons]
    · exact ih2
    · show (pushAll (cb.push x) L).capacity = _
      rw [ih3, h3]

theorem absPush_foldl (cap : Nat) (hcap : 0 < cap) :
    ∀ (L M : List Sample), M.length ≤ cap →
      L.foldl (absPush cap) M = (M ++ L).drop (M.length + L.length - cap) := by
  intro L
  induction L with
  | nil =>
    intro M hM
    have h0 : M.length + ([] : List Sample).length - cap = 0 := by simp; omega
    rw [h0]
    simp
  | cons x L ih =>
    intro M hM
    rw [List.foldl_cons]
    by_cases hlt : M.length < cap
    · simp only [absPush, if_pos hlt]
      rw [ih (M ++ [x]) (by simp; omega)]
      have hc : (M ++ [x]).length + L.length - cap = M.length + (x :: L).length - cap := by
        simp
        omega
      rw [hc, List.append_assoc]
      rfl
    · simp only [absPush, if_neg hlt]
      have hMlen : M.length = cap := by omega
      cases M with
      | nil =>
        simp at hMlen
        omega
      | cons m0 Mt =>
        simp only [List.tail_cons]
        rw [ih (Mt ++ [x]) (by simp at hMlen ⊢; omega)]
        have hc1 : (Mt ++ [x]).length + L.length - cap = L.length := by
          simp at hMlen ⊢
          omega
        have hc2 : (m0 :: Mt).length + (x :: L).length - cap = L.length + 1 := by
          simp at hMlen ⊢
          omega
        rw [hc1, hc2, List.append_assoc]
        have hstep : ((m0 :: Mt) ++ x :: L).drop (L.length + 1) = (Mt ++ x :: L).drop L.length := by
          rw [List.cons_append, List.drop_succ_cons]
        rw [hstep]
        rfl

/-- Claim C5: for every append sequence longer than the capacity `C > 0`, the
store retains exactly the `C` most recently appended samples in original
relative order, and the store length never exceeds `C`. -/
theorem C5_capacity_eviction (cap : Nat) (L : List Sample) (hcap : 0 < cap)
    (hlen : cap < L.length) :
    (pushAll (CircularBuffer.mk0 cap) L).toArrayD = L.drop (L.length - cap) ∧
    (pushAll (CircularBuffer.mk0 cap) L).length = cap ∧
    ∀ L' : List Sample, (pushAll (CircularBuffer.mk0 cap) L').length ≤ cap := by
  have hwf := WF_mk0 cap hcap
  have hm : (CircularBuffer.mk0 cap).toArray = ([] : List Sample).map some := by
    simp [toArray_mk0]
  obtain ⟨h1, h2, h3⟩ := toArray_pushAll L (CircularBuffer.mk0 cap) [] hwf hm
  have hfold : L.foldl (absPush (CircularBuffer.mk0 cap).capacity) []
      = (([] : List Sample) ++ L).drop (([] : List Sample).length + L.length - cap) := by
    have : (CircularBuffer.mk0 cap).capacity = cap := rfl
    rw [this]
    exact absPush_foldl cap hcap L [] (by simp)
  rw [hfold] at h1
  simp only [List.nil_append, List.length_nil, Nat.zero_add] at h1
  refine ⟨toArrayD_of_map_some _ _ h1, ?_, ?_⟩
  · have hl := toArray_length (pushAll (CircularBuffer.mk0 cap) L)
    rw [h1] at hl
    simp [List.length_drop] at hl
    omega
  · intro L'
    obtain ⟨_, hwf', hcap'⟩ := toArray_pushAll L' (CircularBuffer.mk0 cap) [] hwf hm
    have := hwf'.2.2
    rw [hcap'] at this
    exact this

/-- Claim C5 witness: capacity 2, three appends. -/
theorem C5_capacity_eviction_witness :
    0 < 2 ∧ 2 < ([⟨0, true, some 1⟩, ⟨1, true, some 2⟩, ⟨2, true, some 3⟩] : List Sample).length ∧
    (pushAll (CircularBuffer.mk0 2)
        [⟨0, true, some 1⟩, ⟨1, true, some 2⟩, ⟨2, true, some 3⟩]).toArrayD
      = ([⟨0, true, some 1⟩, ⟨1, true, some 2⟩, ⟨2, true, some 3⟩] : List Sample).drop
          (([⟨0, true, some 1⟩, ⟨1, true, some 2⟩, ⟨2, true, some 3⟩] : List Sample).length - 2) :=
  ⟨by decide, by decide,
   (C5_capacity_eviction 2 [⟨0, true, some 1⟩, ⟨1, true, some 2⟩, ⟨2, true, some 3⟩]
      (by decide) (by decide)).1⟩

/-- The loop of `trimBefore` (part_000, lines 27-39), with the remaining
`length` as recursion fuel: while entries remain and the oldest entry is
missing or strictly older than the cutoff, advance `start` and shrink
`length`; stop as soon as the oldest entry has `ts ≥ cutoff`. -/
def trimBeforeAux (buffer : List (Option Sample)) (capacity : Nat) (cutoff : Int) :
    Nat → Nat → Nat × Nat
  | start, 0 => (start, 0)
  | start, len + 1 =>
    match buffer.getD start none with
    | none => (start, len + 1)
    | some first =>
      if cutoff ≤ first.ts then (start, len + 1)
      else trimBeforeAux buffer capacity cutoff ((start + 1) % capacity) len

/-- `trimBefore(timestampIso)`: the worker compares
`Date.parse(first.ts) >= Date.parse(timestampIso)`; timestamps are embedded as
the parsed epoch milliseconds, so the cutoff is an `Int`. -/
def CircularBuffer.trimBefore (cb : CircularBuffer) (cutoff : Int) : CircularBuffer :=
  let r := trimBeforeAux cb.buffer cb.capacity cutoff cb.start cb.length
  { cb with start := r.1, length := r.2 }

theorem trimAux_spec (buf : List (Option Sample)) (cap : Nat) (cutoff : Int) :
    ∀ (M : List Sample) (start : Nat), start < cap → buf.length = cap →
      CircularBuffer.toArray ⟨cap, buf, start, M.length⟩ = M.map some →
      CircularBuffer.toArray ⟨cap, buf,
          (trimBeforeAux buf cap cutoff start M.length).1,
          (trimBeforeAux buf cap cutoff start M.length).2⟩
        = (M.dropWhile (fun s => s.ts < cutoff)).map some ∧
      (trimBeforeAux buf cap cutoff start M.length).1 < cap ∧
      (trimBeforeAux buf cap cutoff start M.length).2 ≤ M.length := by
  intro M
  induction M with
  | nil =>
    intro start h1 h2 h3
    refine ⟨?_, h1, by simp [trimBeforeAux]⟩
    simp [trimBeforeAux, CircularBuffer.toArray]
  | cons m M' ih =>
    intro start h1 h2 h3
    have h3' : buf.getD ((start + 0) % cap) none
          :: List.map (fun i => buf.getD ((start + (i + 1)) % cap) none) (List.range M'.length)
        = some m :: M'.map some := by
      have hx : CircularBuffer.toArray ⟨cap, buf, start, (m :: M').length⟩
          = buf.getD ((start + 0) % cap) none
            :: List.map (fun i => buf.getD ((start + (i + 1)) % cap) none)
                (List.range M'.length) := by
        simp only [CircularBuffer.toArray, List.length_cons, List.range_succ_eq_map,
          List.map_cons, List.map_map]
        rfl
      rw [← hx, h3, List.map_cons]
    have hfirst : buf.getD start none = some m := by
      have := (List.cons_eq_cons.mp h3').1
      rwa [Nat.add_zero, Nat.mod_eq_of_lt h1] at this
    have htail : List.map (fun i => buf.getD ((start + (i + 1)) % cap) none)
        (List.range M'.length) = M'.map some :=
      (List.cons_eq_cons.mp h3').2
    by_cases hts : cutoff ≤ m.ts
    · have haux : trimBeforeAux buf cap cutoff start (m :: M').length
          = (start, M'.length + 1) := by
        simp only [List.length_cons, trimBeforeAux, hfirst]
        rw [if_pos hts]
      rw [haux]
      have hdw : (m :: M').dropWhile (fun s => s.ts < cutoff) = m :: M' := by
        rw [List.dropWhile_cons, if_neg (by simp; omega)]
      rw [hdw]
      exact ⟨by simpa using h3, h1, by simp⟩
    · have hcap0 : 0 < cap := by omega
      have haux : trimBeforeAux buf cap cutoff start (m :: M').length
          = trimBeforeAux buf cap cutoff ((start + 1) % cap) M'.length := by
        simp only [List.length_cons, trimBeforeAux, hfirst]
        rw [if_neg hts]
      have hstart' : (start + 1) % cap < cap := Nat.mod_lt _ hcap0
      have harr : CircularBuffer.toArray ⟨cap, buf, (start + 1) % cap, M'.length⟩
          = M'.map some := by
        rw [← htail]
        simp only [CircularBuffer.toArray]
        apply List.map_congr_left
        intro i _
        congr 1
        rw [Nat.mod_add_mod, Nat.add_assoc]
        congr 1
        omega
      obtain ⟨ih1, ih2, ih3⟩ := ih ((start + 1) % cap) hstart' h2 harr
      have hdw : (m :: M').dropWhile (fun s => s.ts < cutoff)
          = M'.dropWhile (fun s => s.ts < cutoff) := by
        rw [List.dropWhile_cons, if_pos (by simp; omega)]
      rw [haux, hdw]
      refine ⟨ih1, ih2, ?_⟩
      simp only [List.length_cons]
      omega

theorem trimBefore_spec (cb : CircularBuffer) (M : List Sample) (cutoff : Int)
    (h : cb.WF) (hM : cb.toArray = M.map some) :
    (cb.trimBefore cutoff).toArray = (M.dropWhile (fun s => s.ts < cutoff)).map some ∧
    (cb.trimBefore cutoff).WF ∧ (cb.trimBefore cutoff).capacity = cb.capacity := by
  obtain ⟨h1, h2, h3⟩ := h
  have hlen : cb.length = M.length := by
    have hl := toArray_length cb
    rw [hM] at hl
    simpa using hl.symm
  obtain ⟨cap, buf, start, len⟩ := cb
  simp only at h1 h2 h3 hlen hM
  subst hlen
  obtain ⟨t1, t2, t3⟩ := trimAux_spec buf cap cutoff M start h2 h1 hM
  have htb : ((⟨cap, buf, start, M.length⟩ : CircularBuffer).trimBefore cutoff)
      = ⟨cap, buf, (trimBeforeAux buf cap cutoff start M.length).1,
          (trimBeforeAux buf cap cutoff start M.length).2⟩ := rfl
  rw [htb]
  refine ⟨t1, ⟨h1, t2, ?_⟩, rfl⟩
  show (trimBeforeAux buf cap cutoff start M.length).2 ≤ cap
  omega

theorem dropWhile_sorted_bound (c : Int) (M : List Sample)
    (hs : M.Pairwise (fun a b => a.ts ≤ b.ts)) :
    ∀ x ∈ M.dropWhile (fun s => s.ts < c), c ≤ x.ts := by
  induction M with
  | nil => simp
  | cons m M' ih =>
    rw [List.dropWhile_cons]
    rw [List.pairwise_cons] at hs
    by_cases hm : m.ts < c
    · rw [if_pos (by simpa using hm)]
      exact ih hs.2
    · rw [if_neg (by simpa using hm)]
      intro x hx
      rcases List.mem_cons.mp hx with hx1 | hx2
      · subst hx1; omega
      · have := hs.1 x hx2
        omega

/-! ### The engine: `handleMessage` and its helpers -/

/-- The result of the JS bracket lookup `RANGE_WINDOWS[r]` on the plain object
literal of part_000 line 42: an own property yields the window span in
milliseconds; a key inherited through the prototype chain from
`Object.prototype` (e.g. `'toString'`) yields a truthy non-numeric value
(arithmetic with it gives `NaN`); any other key is `undefined` (falsy). -/
inductive JsLookup where
  | span (ms : Int)
  | inherited
  | missing
deriving Repr, DecidableEq

/-- The standard members inherited from `Object.prototype`, visible through
bracket lookup on a plain object literal in a stock JS environment; all are
truthy (functions, or `Object.prototype` itself for `__proto__`). -/
def protoKeys : List String :=
  ["constructor", "hasOwnProperty", "isPrototypeOf", "propertyIsEnumerable",
   "toLocaleString", "toString", "valueOf", "__proto__",
   "__defineGetter__", "__defineSetter__", "__lookupGetter__", "__lookupSetter__"]

/-- `RANGE_WINDOWS` (part_000, line 42), as bracket lookup including the
prototype chain. -/
def RANGE_WINDOWS (r : String) : JsLookup :=
  if r = "5m" then .span (5 * 60 * 1000)
  else if r = "1h" then .span (60 * 60 * 1000)
  else if r = "24h" then .span (24 * 60 * 60 * 1000)
  else if r ∈ protoKeys then .inherited
  else .missing

/-- Whether a lookup hit an inherited (truthy, non-numeric) prototype member. -/
def JsLookup.isInherited : JsLookup → Bool
  | .inherited => true
  | _ => false

/-- `MAX_CAP` (part_000, line 43). -/
def MAX_CAP : Nat := 50000

/-- The worker's mutable state: `buffer`, `currentRange`, `decimationTarget`. -/
structure EngineState where
  buffer : CircularBuffer
  currentRange : String
  decimationTarget : Int
deriving Repr, DecidableEq

/-- The worker's initial state (part_000, lines 44-46). -/
def engineInit : EngineState := ⟨CircularBuffer.mk0 MAX_CAP, "5m", 400⟩

/-- `filterRange` (part_000, lines 102-108): identity for `'all'` and when the
lookup is `undefined` (the `if(!span) return arr` exit); for a real span, keep
samples with `ts ≥ now − span`; for an inherited truthy non-numeric lookup the
cutoff `Date.now() - span` is `NaN` and `Date.parse(s.ts) >= NaN` is false for
every sample, so the filter keeps nothing. -/
def filterRange (range : String) (now : Int) (arr : List Sample) : List Sample :=
  if range = "all" then arr
  else
    match RANGE_WINDOWS range with
    | .missing => arr
    | .span span => arr.filter (fun s => now - span ≤ s.ts)
    | .inherited => arr.filter (fun _ => false)

/-- A snapshot payload `{metrics, samples}`. -/
structure Snapshot where
  metrics : Metrics
  samples : List Sample
deriving Repr, DecidableEq

/-- A `postMessage` reply `{type, payload}`. -/
structure Reply where
  rtype : String
  payload : Snapshot
deriving Repr, DecidableEq

/-- `prepareSnapshot` (part_000, lines 110-115): metrics over the
window-filtered slice, samples decimated from that same slice. -/
def prepareSnapshot (now : Int) (st : EngineState) : Snapshot :=
  let full := filterRange st.currentRange now st.buffer.toArrayD
  { metrics := computeMetrics full, samples := lttbDownsample full st.decimationTarget }

/-- The eviction block repeated in `handleMessage` (part_000, lines 122-127,
133-139, 145-151): when the current range is not `'all'` and the lookup is
truthy, compute the cutoff and trim.  `none` models the `RangeError` thrown by
`new Date(Date.now() - span).toISOString()` when the truthy `span` is an
inherited non-numeric prototype member (the subtraction yields `NaN`, making
the `Date` invalid). -/
def evictByWindow (now : Int) (range : String) (cb : CircularBuffer) :
    Option CircularBuffer :=
  if range = "all" then some cb
  else
    match RANGE_WINDOWS range with
    | .missing => some cb
    | .span span => some (cb.trimBefore (now - span))
    | .inherited => none

/-- The worker's inbound message types; `bulkAdd`/`replaceAll` payloads are
`none` when the payload is missing or `payload.samples` is not an array. -/
inductive Msg where
  | add (sample : Sample)
  | bulkAdd (samples : Option (List Sample))
  | replaceAll (samples : Option (List Sample))
  | setRange (range : String)
  | setDecimation (target : Int)
  | snapshot
  | other (t : String)
deriving Repr, DecidableEq

/-- The outcome of one `handleMessage` call: the worker state afterwards
(mutations performed before a thrown exception persist — the pushes precede
the trim block), the replies posted, and whether the handler aborted with an
uncaught exception (in which case nothing was posted). -/
structure StepResult where
  state : EngineState
  replies : List Reply
  threw : Bool
deriving Repr, DecidableEq

/-- `handleMessage` (part_000, lines 117-165).  Every branch except `snapshot`
falls through to the trailing
`postMessage({type:'update', payload: prepareSnapshot()})`; `snapshot` posts a
`'snapshot'` reply and returns early.  When the trim block throws (inherited
prototype range), the handler aborts after the pushes with no reply and no
trim. -/
def handleMessage (now : Int) (st : EngineState) (m : Msg) : StepResult :=
  match m with
  | .add s =>
    match evictByWindow now st.currentRange (st.buffer.push s) with
    | some b =>
      let st' := { st with buffer := b }
      ⟨st', [⟨"update", prepareSnapshot now st'⟩], false⟩
    | none => ⟨{ st with buffer := st.buffer.push s }, [], true⟩
  | .bulkAdd p =>
    match p with
    | some samples =>
      if st.buffer.length = 0 then
        match evictByWindow now st.currentRange (pushAll st.buffer samples) with
        | some b =>
          let st' := { st with buffer := b }
          ⟨st', [⟨"update", prepareSnapshot now st'⟩], false⟩
        | none => ⟨{ st with buffer := pushAll st.buffer samples }, [], true⟩
      else ⟨st, [⟨"update", prepareSnapshot now st⟩], false⟩
    | none => ⟨st, [⟨"update", prepareSnapshot now st⟩], false⟩
  | .replaceAll p =>
    match p with
    | some samples =>
      match evictByWindow now st.currentRange (pushAll (CircularBuffer.mk0 MAX_CAP) samples) with
      | some b =>
        let st' := { st with buffer := b }
        ⟨st', [⟨"update", prepareSnapshot now st'⟩], false⟩
      | none => ⟨{ st with buffer := pushAll (CircularBuffer.mk0 MAX_CAP) samples }, [], true⟩
    | none => ⟨st, [⟨"update", prepareSnapshot now st⟩], false⟩
  | .setRange r =>
    let st' := { st with currentRange := r }
    ⟨st', [⟨"update", prepareSnapshot now st'⟩], false⟩
  | .setDecimation t =>
    let st' := { st with decimationTarget := t }
    ⟨st', [⟨"update", prepareSnapshot now st'⟩], false⟩
  | .snapshot => ⟨st, [⟨"snapshot", prepareSnapshot now st⟩], false⟩
  | .other _ => ⟨st, [⟨"update", prepareSnapshot now st⟩], false⟩

/-- Whether a command reaches the trim block — the only place that can throw:
`add` always, an APPLYING `bulkAdd` (empty store, array payload), and a
`replaceAll` with an array payload. -/
def reachesTrim (st : EngineState) : Msg → Bool
  | .add _ => true
  | .bulkAdd (some _) => st.buffer.length == 0
  | .replaceAll (some _) => true
  | _ => false

theorem RANGE_WINDOWS_all : RANGE_WINDOWS "all" = JsLookup.missing := by decide

theorem evictByWindow_span (now span : Int) (r : String) (cb : CircularBuffer)
    (hw : RANGE_WINDOWS r = JsLookup.span span) :
    evictByWindow now r cb = some (cb.trimBefore (now - span)) := by
  have hra : r ≠ "all" := by
    intro h
    rw [h, RANGE_WINDOWS_all] at hw
    simp at hw
  simp only [evictByWindow, if_neg hra, hw]

theorem evictByWindow_eq_none_iff (now : Int) (r : String) (cb : CircularBuffer) :
    evictByWindow now r cb = none ↔ (RANGE_WINDOWS r).isInherited = true := by
  by_cases hall : r = "all"
  · subst hall
    rw [RANGE_WINDOWS_all]
    simp [evictByWindow, JsLookup.isInherited]
  · cases hlk : RANGE_WINDOWS r with
    | span s => simp [evictByWindow, hall, hlk, JsLookup.isInherited]
    | inherited => simp [evictByWindow, hall, hlk, JsLookup.isInherited]
    | missing => simp [evictByWindow, hall, hlk, JsLookup.isInherited]

theorem isInherited_false_of_some (now : Int) (r : String) (cb b : CircularBuffer)
    (h : evictByWindow now r cb = some b) : (RANGE_WINDOWS r).isInherited = false := by
  by_contra hc
  rw [Bool.not_eq_false] at hc
  rw [(evictByWindow_eq_none_iff now r cb).mpr hc] at h
  simp at h

/-- The reply type each message produces: `'snapshot'` for an explicit
snapshot request, `'update'` for everything else. -/
def replyTypeOf : Msg → String
  | .snapshot => "snapshot"
  | _ => "update"

/-- Claim C3 counterexample: the two config setters DO push a snapshot-bearing
reply — `setRange` (setWindow) and `setDecimation` (setDecimationTarget) each
produce exactly one `update` reply, not zero. -/
theorem C3_counterexample :
    (handleMessage 0 engineInit (Msg.setRange "1h")).replies.length = 1 ∧
    (handleMessage 0 engineInit (Msg.setDecimation 7)).replies.length = 1 := by
  exact ⟨rfl, rfl⟩

/-- Claim C3 (amended): a command throws iff it reaches the trim block while
the current range names an inherited prototype member; when it does not throw
— in particular for the two config setters, the explicit snapshot, unknown
types, and every command under the real windows and `'all'` — it pushes
exactly one reply bearing a freshly computed snapshot of the post-command
state (`'snapshot'`-typed for an explicit snapshot request, `'update'`-typed
otherwise); when it throws, nothing is pushed. -/
theorem C3_every_command_replies (now : Int) (st : EngineState) (m : Msg) :
    ((handleMessage now st m).threw
       = (reachesTrim st m && (RANGE_WINDOWS st.currentRange).isInherited)) ∧
    ((handleMessage now st m).threw = false →
       (handleMessage now st m).replies
         = [⟨replyTypeOf m, prepareSnapshot now (handleMessage now st m).state⟩]) ∧
    ((handleMessage now st m).threw = true →
       (handleMessage now st m).replies = []) := by
  cases m with
  | add s =>
    cases hev : evictByWindow now st.currentRange (st.buffer.push s) with
    | none =>
      have hinh := (evictByWindow_eq_none_iff now st.currentRange (st.buffer.push s)).mp hev
      refine ⟨?_, ?_, ?_⟩
      · simp [handleMessage, hev, reachesTrim, hinh]
      · intro hth
        simp [handleMessage, hev] at hth
      · intro _
        simp [handleMessage, hev]
    | some b =>
      have hninh := isInherited_false_of_some now st.currentRange (st.buffer.push s) b hev
      refine ⟨?_, ?_, ?_⟩
      · simp [handleMessage, hev, reachesTrim, hninh]
      · intro _
        simp [handleMessage, hev, replyTypeOf]
      · intro hth
        simp [handleMessage, hev] at hth
  | bulkAdd p =>
    cases p with
    | none =>
      refine ⟨by simp [handleMessage, reachesTrim], fun _ => rfl, ?_⟩
      intro hth
      simp [handleMessage] at hth
    | some samples =>
      by_cases h0 : st.buffer.length = 0
      · cases hev : evictByWindow now st.currentRange (pushAll st.buffer samples) with
        | none =>
          have hinh :=
            (evictByWindow_eq_none_iff now st.currentRange (pushAll st.buffer samples)).mp hev
          refine ⟨?_, ?_, ?_⟩
          · simp [handleMessage, if_pos h0, hev, reachesTrim, hinh, h0]
          · intro hth
            simp [handleMessage, if_pos h0, hev] at hth
          · intro _
            simp [handleMessage, if_pos h0, hev]
        | some b =>
          have hninh :=
            isInherited_false_of_some now st.currentRange (pushAll st.buffer samples) b hev
          refine ⟨?_, ?_, ?_⟩
          · simp [handleMessage, if_pos h0, hev, reachesTrim, hninh]
          · intro _
            simp [handleMessage, if_pos h0, hev, replyTypeOf]
          · intro hth
            simp [handleMessage, if_pos h0, hev] at hth
      · refine ⟨?_, ?_, ?_⟩
        · simp [handleMessage, if_neg h0, reachesTrim, h0]
        · intro _
          simp [handleMessage, if_neg h0, replyTypeOf]
        · intro hth
          simp [handleMessage, if_neg h0] at hth
  | replaceAll p =>
    cases p with
    | none =>
      refine ⟨by simp [handleMessage, reachesTrim], fun _ => rfl, ?_⟩
      intro hth
      simp [handleMessage] at hth
    | some samples =>
      cases hev : evictByWindow now st.currentRange (pushAll (CircularBuffer.mk0 MAX_CAP) samples) with
      | none =>
        have hinh := (evictByWindow_eq_none_iff now st.currentRange
          (pushAll (CircularBuffer.mk0 MAX_CAP) samples)).mp hev
        refine ⟨?_, ?_, ?_⟩
        · simp [handleMessage, hev, reachesTrim, hinh]
        · intro hth
          simp [handleMessage, hev] at hth
        · intro _
          simp [handleMessage, hev]
      | some b =>
        have hninh := isInherited_false_of_some now st.currentRange
          (pushAll (CircularBuffer.mk0 MAX_CAP) samples) b hev
        refine ⟨?_, ?_, ?_⟩
        · simp [handleMessage, hev, reachesTrim, hninh]
        · intro _
          simp [handleMessage, hev, replyTypeOf]
        · intro hth
          simp [handleMessage, hev] at hth
  | setRange r =>
    exact ⟨by simp [handleMessage, reachesTrim], fun _ => rfl,
      by intro hth; simp [handleMessage] at hth⟩
  | setDecimation t =>
    exact ⟨by simp [handleMessage, reachesTrim], fun _ => rfl,
      by intro hth; simp [handleMessage] at hth⟩
  | snapshot =>
    exact ⟨by simp [handleMessage, reachesTrim], fun _ => rfl,
      by intro hth; simp [handleMessage] at hth⟩
  | other t =>
    exact ⟨by simp [handleMessage, reachesTrim], fun _ => rfl,
      by intro hth; simp [handleMessage] at hth⟩

/-- Claim C3 witness: a `setRange` at the initial state does not throw and
pushes exactly its one fresh `update` reply. -/
theorem C3_every_command_replies_witness :
    (handleMessage 0 engineInit (Msg.setRange "1h")).threw = false ∧
    (handleMessage 0 engineInit (Msg.setRange "1h")).replies
      = [⟨replyTypeOf (Msg.setRange "1h"),
          prepareSnapshot 0 (handleMessage 0 engineInit (Msg.setRange "1h")).state⟩] :=
  ⟨rfl, (C3_every_command_replies 0 engineInit (Msg.setRange "1h")).2.1 rfl⟩

/-- Spec-side: timestamps non-decreasing in stored order (the spec's "assumes
append order is time-monotonic"). -/
def sortedTs (l : List Sample) : Prop := l.Pairwise (fun a b => a.ts ≤ b.ts)

/-- Every retained sample's timestamp is at least the cutoff. -/
def ageBounded (cutoff : Int) (l : List Sample) : Prop := ∀ x ∈ l, cutoff ≤ x.ts

theorem sortedTs_absPush (cap : Nat) (M : List Sample) (x : Sample)
    (h : sortedTs (M ++ [x])) : sortedTs (absPush cap M x) := by
  unfold absPush
  split
  · exact h
  · exact h.sublist ((M.tail_sublist).append_right [x])

theorem trim_ageBounded (now span : Int) (cb : CircularBuffer) (N : List Sample)
    (hwf : cb.WF) (hN : cb.toArray = N.map some) (hs : sortedTs N) :
    ageBounded (now - span) (cb.trimBefore (now - span)).toArrayD := by
  obtain ⟨t1, _, _⟩ := trimBefore_spec cb N (now - span) hwf hN
  rw [toArrayD_of_map_some _ _ t1]
  exact fun x hx => dropWhile_sorted_bound _ N hs x hx

/-- Claim C4 counterexample: the eviction only trims a PREFIX of the stored
sequence; with out-of-order appends (window 5m, `now = 10^6`), a fresh sample
followed by an old one leaves the old sample retained immediately after the
`add` completes, with age far beyond the window. -/
theorem C4_counterexample :
    RANGE_WINDOWS "5m" = JsLookup.span 300000 ∧
    (handleMessage 1000000
        ((handleMessage 1000000 engineInit (Msg.add ⟨1000000, true, some 1⟩)).state)
        (Msg.add ⟨0, true, some 1⟩)).state.buffer.toArrayD
      = [⟨1000000, true, some 1⟩, ⟨0, true, some 1⟩] ∧
    ((⟨0, true, some 1⟩ : Sample)).ts < 1000000 - 300000 := by
  exact ⟨rfl, rfl, by decide⟩

/-- Claim C4 (amended): when the current window maps to a span and the stored
sequence is timestamp-sorted (the spec's time-monotonic append assumption),
then immediately after an `add`, an APPLYING `bulkAdd` (empty store), or a
`replaceAll`, every retained sample has `ts ≥ now − span`.  (Without
sortedness the claim fails, see the counterexample; a guarded no-op `bulkAdd`
on a non-empty store also trims nothing.) -/
theorem C4_window_eviction (now span : Int) (st : EngineState) (M : List Sample)
    (hw : RANGE_WINDOWS st.currentRange = JsLookup.span span)
    (hwf : st.buffer.WF) (hM : st.buffer.toArray = M.map some) :
    (∀ s : Sample, sortedTs (M ++ [s]) →
       ageBounded (now - span)
         (handleMessage now st (Msg.add s)).state.buffer.toArrayD) ∧
    (∀ l : List Sample, st.buffer.length = 0 → sortedTs l →
       ageBounded (now - span)
         (handleMessage now st (Msg.bulkAdd (some l))).state.buffer.toArrayD) ∧
    (∀ l : List Sample, sortedTs l →
       ageBounded (now - span)
         (handleMessage now st (Msg.replaceAll (some l))).state.buffer.toArrayD) := by
  have hcap0 : 0 < st.buffer.capacity := by
    have := hwf.2.1
    omega
  refine ⟨?_, ?_, ?_⟩
  · intro s hs
    have hst : (handleMessage now st (Msg.add s)).state
        = { st with buffer := (st.buffer.push s).trimBefore (now - span) } := by
      simp only [handleMessage,
        evictByWindow_span now span st.currentRange (st.buffer.push s) hw]
    rw [hst]
    exact trim_ageBounded now span (st.buffer.push s)
      (absPush st.buffer.capacity M s) (WF_push st.buffer s hwf)
      (toArray_push_abs st.buffer s M hwf hM)
      (sortedTs_absPush st.buffer.capacity M s hs)
  · intro l h0 hs
    have hM0 : M = [] := by
      have hl := toArray_length st.buffer
      rw [hM] at hl
      simp [h0] at hl
      exact hl
    subst hM0
    have hst : (handleMessage now st (Msg.bulkAdd (some l))).state
        = { st with buffer := (pushAll st.buffer l).trimBefore (now - span) } := by
      simp only [handleMessage, if_pos h0,
        evictByWindow_span now span st.currentRange (pushAll st.buffer l) hw]
    rw [hst]
    obtain ⟨p1, p2, p3⟩ := toArray_pushAll l st.buffer [] hwf hM
    have hfold : l.foldl (absPush st.buffer.capacity) []
        = l.drop (l.length - st.buffer.capacity) := by
      have := absPush_foldl st.buffer.capacity hcap0 l [] (by simp)
      simpa using this
    rw [hfold] at p1
    exact trim_ageBounded now span (pushAll st.buffer l)
      (l.drop (l.length - st.buffer.capacity)) p2 p1
      (hs.sublist (List.drop_sublist _ l))
  · intro l hs
    have hst : (handleMessage now st (Msg.replaceAll (some l))).state
        = { st with buffer :=
              (pushAll (CircularBuffer.mk0 MAX_CAP) l).trimBefore (now - span) } := by
      simp only [handleMessage,
        evictByWindow_span now span st.currentRange (pushAll (CircularBuffer.mk0 MAX_CAP) l) hw]
    rw [hst]
    have hwf0 := WF_mk0 MAX_CAP (by decide)
    have hm0 : (CircularBuffer.mk0 MAX_CAP).toArray = ([] : List Sample).map some := by
      simp [toArray_mk0]
    obtain ⟨p1, p2, p3⟩ := toArray_pushAll l (CircularBuffer.mk0 MAX_CAP) [] hwf0 hm0
    have hfold : l.foldl (absPush (CircularBuffer.mk0 MAX_CAP).capacity) []
        = l.drop (l.length - MAX_CAP) := by
      have := absPush_foldl MAX_CAP (by decide) l [] (by simp)
      simpa [CircularBuffer.mk0] using this
    rw [hfold] at p1
    exact trim_ageBounded now span (pushAll (CircularBuffer.mk0 MAX_CAP) l)
      (l.drop (l.length - MAX_CAP)) p2 p1 (hs.sublist (List.drop_sublist _ l))

/-- Claim C4 witness: a fresh sample appended to an empty 2-slot store under
the 5m window stays within the age bound. -/
theorem C4_window_eviction_witness :
    RANGE_WINDOWS "5m" = JsLookup.span 300000 ∧
    ageBounded (0 - 300000)
      (handleMessage 0 ⟨⟨2, [none, none], 0, 0⟩, "5m", 400⟩
        (Msg.add ⟨999, true, none⟩)).state.buffer.toArrayD :=
  ⟨by decide,
   (C4_window_eviction 0 300000 ⟨⟨2, [none, none], 0, 0⟩, "5m", 400⟩ []
      (by decide) ⟨by decide, by decide, by decide⟩ (by decide)).1
     ⟨999, true, none⟩ (by simp [sortedTs])⟩

/-- Claim C8 counterexample: with `A = []`, `bulkAdd(A)` leaves the store
empty, so `bulkAdd(B)` seeds it — the final store holds `B`'s contribution,
not only `A`'s (which would be empty). -/
theorem C8_counterexample :
    (handleMessage 0 ((handleMessage 0 engineInit (Msg.bulkAdd (some []))).state)
        (Msg.bulkAdd (some [⟨0, true, some 1⟩]))).state.buffer.toArrayD
      = [⟨0, true, some 1⟩] ∧
    ([⟨0, true, some 1⟩] : List Sample) ≠ ([] : List Sample) := by
  exact ⟨rfl, by decide⟩

/-- Claim C8 (amended): a `bulkAdd` arriving at a non-empty store leaves the
whole engine state unchanged; hence `bulkAdd(A)` then `bulkAdd(B)` from an
empty store yields only `A`'s contribution PROVIDED the store is still
non-empty when the second command arrives (this fails when `A` is empty or
entirely window-evicted, see the counterexample). -/
theorem C8_bulkAdd_guard :
    (∀ (now : Int) (st : EngineState) (p : Option (List Sample)),
       st.buffer.length ≠ 0 → (handleMessage now st (Msg.bulkAdd p)).state = st) ∧
    (∀ (now now' : Int) (st : EngineState) (A B : List Sample),
       (handleMessage now st (Msg.bulkAdd (some A))).state.buffer.length ≠ 0 →
       (handleMessage now' (handleMessage now st (Msg.bulkAdd (some A))).state
           (Msg.bulkAdd (some B))).state
         = (handleMessage now st (Msg.bulkAdd (some A))).state) := by
  have h1 : ∀ (now : Int) (st : EngineState) (p : Option (List Sample)),
      st.buffer.length ≠ 0 → (handleMessage now st (Msg.bulkAdd p)).state = st := by
    intro now st p h
    cases p with
    | none => rfl
    | some samples =>
      simp only [handleMessage, if_neg h]
  exact ⟨h1, fun now now' st A B h => h1 now' _ (some B) h⟩

/-- Claim C8 witness: a `bulkAdd` at a concrete non-empty one-slot store is a
complete no-op on the state. -/
theorem C8_bulkAdd_guard_witness :
    (⟨⟨1, [some ⟨5, true, none⟩], 0, 1⟩, "all", 400⟩ : EngineState).buffer.length ≠ 0 ∧
    (handleMessage 0 ⟨⟨1, [some ⟨5, true, none⟩], 0, 1⟩, "all", 400⟩
        (Msg.bulkAdd (some [⟨7, true, none⟩]))).state
      = ⟨⟨1, [some ⟨5, true, none⟩], 0, 1⟩, "all", 400⟩ :=
  ⟨by decide,
   C8_bulkAdd_guard.1 0 ⟨⟨1, [some ⟨5, true, none⟩], 0, 1⟩, "all", 400⟩
     (some [⟨7, true, none⟩]) (by decide)⟩

/-- Claim C9 counterexample: after `setDecimation 0` on a one-sample store, an
explicit snapshot carries the sample DUPLICATED (`[s, s]`), while target 2
would return `[s]` — the behaviour is not that of the target clamped to 2. -/
theorem C9_counterexample :
    ((handleMessage 0
        ((handleMessage 0
            ((handleMessage 0 engineInit (Msg.add ⟨0, true, some 10⟩)).state)
            (Msg.setDecimation 0)).state)
        Msg.snapshot).replies.map (fun rep => rep.payload.samples))
      = [[⟨0, true, some 10⟩, ⟨0, true, some 10⟩]] ∧
    lttbDownsample [⟨0, true, some 10⟩] 2 = [⟨0, true, some 10⟩] ∧
    ([⟨0, true, some 10⟩, ⟨0, true, some 10⟩] : List Sample) ≠ [⟨0, true, some 10⟩] := by
  exact ⟨rfl, rfl, by decide⟩

/-- Claim C10 counterexample: `'toString'` (settable via `setRange`) hits an
inherited `Object.prototype` member, so the lookup is truthy: snapshot
filtering keeps NOTHING (the cutoff is `NaN`), and an `add` at that state
throws in the trim block — no reply is posted — instead of behaving as the
unbounded window. -/
theorem C10_counterexample :
    filterRange "toString" 0 [⟨0, true, none⟩] = [] ∧
    ([⟨0, true, none⟩] : List Sample) ≠ [] ∧
    (handleMessage 0 (handleMessage 0 engineInit (Msg.setRange "toString")).state
        (Msg.add ⟨0, true, none⟩)).threw = true ∧
    (handleMessage 0 (handleMessage 0 engineInit (Msg.setRange "toString")).state
        (Msg.add ⟨0, true, none⟩)).replies = [] := by
  exact ⟨rfl, by decide, rfl, rfl⟩

/-- Claim C10 (amended): for every window value outside `{'5m','1h','24h'}`
that is not an inherited `Object.prototype` key either, the engine never
errors and behaves exactly as the unbounded window: snapshot filtering
returns the buffered sequence unchanged, no time-based eviction occurs on
mutation, and every command yields the same store, the same replies and no
exception, exactly as with `'all'`.  A prototype-chain key such as
`'toString'` instead filters everything out and makes the trimming mutators
throw (see the counterexample). -/
theorem C10_unknown_window (r : String)
    (hr : r ≠ "5m" ∧ r ≠ "1h" ∧ r ≠ "24h" ∧ r ∉ protoKeys) :
    (∀ (now : Int) (arr : List Sample), filterRange r now arr = arr) ∧
    (∀ (now : Int) (cb : CircularBuffer), evictByWindow now r cb = some cb) ∧
    (∀ (now : Int) (st : EngineState) (m : Msg), st.currentRange = r →
       (handleMessage now st m).state.buffer
         = (handleMessage now { st with currentRange := "all" } m).state.buffer ∧
       (handleMessage now st m).replies
         = (handleMessage now { st with currentRange := "all" } m).replies ∧
       (handleMessage now st m).threw = false) := by
  have hw : RANGE_WINDOWS r = JsLookup.missing := by
    simp [RANGE_WINDOWS, hr.1, hr.2.1, hr.2.2.1, hr.2.2.2]
  have hfil : ∀ (now : Int) (arr : List Sample), filterRange r now arr = arr := by
    intro now arr
    by_cases hall : r = "all"
    · simp [filterRange, hall]
    · simp [filterRange, hall, hw]
  have hfilall : ∀ (now : Int) (arr : List Sample), filterRange "all" now arr = arr := by
    intro now arr
    simp [filterRange]
  have hev : ∀ (now : Int) (cb : CircularBuffer), evictByWindow now r cb = some cb := by
    intro now cb
    by_cases hall : r = "all"
    · simp [evictByWindow, hall]
    · simp [evictByWindow, hall, hw]
  have hevall : ∀ (now : Int) (cb : CircularBuffer),
      evictByWindow now "all" cb = some cb := by
    intro now cb
    simp [evictByWindow]
  have hps : ∀ (now : Int) (b : CircularBuffer) (t : Int),
      prepareSnapshot now ⟨b, r, t⟩ = prepareSnapshot now ⟨b, "all", t⟩ := by
    intro now b t
    simp only [prepareSnapshot, hfil, hfilall]
  refine ⟨hfil, hev, ?_⟩
  intro now st m hst
  obtain ⟨b, r0, t⟩ := st
  simp only at hst
  subst hst
  cases m with
  | add s =>
    exact ⟨by simp [handleMessage, hev, hevall],
      by simp [handleMessage, hev, hevall, hps],
      by simp [handleMessage, hev]⟩
  | bulkAdd p =>
    cases p with
    | none => exact ⟨rfl, by simp [handleMessage, hps], rfl⟩
    | some samples =>
      by_cases h0 : b.length = 0
      · refine ⟨?_, ?_, ?_⟩
        · simp [handleMessage, if_pos h0, hev, hevall]
        · simp [handleMessage, if_pos h0, hev, hevall, hps]
        · simp [handleMessage, if_pos h0, hev]
      · refine ⟨?_, ?_, ?_⟩
        · simp [handleMessage, if_neg h0]
        · simp [handleMessage, if_neg h0, hps]
        · simp [handleMessage, if_neg h0]
  | replaceAll p =>
    cases p with
    | none => exact ⟨rfl, by simp [handleMessage, hps], rfl⟩
    | some samples =>
      exact ⟨by simp [handleMessage, hev, hevall],
        by simp [handleMessage, hev, hevall, hps],
        by simp [handleMessage, hev]⟩
  | setRange r' =>
    refine ⟨rfl, ?_, rfl⟩
    show [(⟨"update", prepareSnapshot now ⟨b, r', t⟩⟩ : Reply)]
      = [(⟨"update", prepareSnapshot now ⟨b, r', t⟩⟩ : Reply)]
    rfl
  | setDecimation t' => exact ⟨rfl, by simp [handleMessage, hps], rfl⟩
  | snapshot => exact ⟨rfl, by simp [handleMessage, hps], rfl⟩
  | other s => exact ⟨rfl, by simp [handleMessage, hps], rfl⟩

/-- Claim C10 witness: the unrecognized, non-prototype range `"bogus"` filters
nothing. -/
theorem C10_unknown_window_witness :
    filterRange "bogus" 0 [⟨5, true, none⟩] = [⟨5, true, none⟩] :=
  (C10_unknown_window "bogus" ⟨by decide, by decide, by decide, by decide⟩).1
    0 [⟨5, true, none⟩]

end Tracker
